import Mathlib

/- Verification development for the R_t inference engine of
   covid-data-model (src/pyseir/inference/infer_rt.py).

   Shallow embedding conventions:
   * machine floats are modelled by exact rationals (ℚ);
   * values produced by external numeric libraries (scipy pdf/pmf
     evaluations) enter as nonnegative rational parameters;
   * NaN cells of a pandas frame are modelled by `Option ℚ` with
     `none` for NaN;
   * fallible code returns `Option`. -/

namespace InferRt

/-! ### Constants (`InferRtConstants`, `EPSILON`) -/

def LOCAL_LOOKBACK_WINDOW : ℕ := 14

def Z_THRESHOLD : ℚ := 10

def MIN_MEAN_TO_CONSIDER : ℚ := 5

/-- Small epsilon to prevent divide by 0 errors (source: `EPSILON = 1e-8`). -/
def EPSILON : ℚ := 1 / 100000000

/-! ### `replace_outliers`

The source computes, once and for all from the *input* series,
`m = x.rolling(14, min_periods=14).mean().shift(1)` and
`s = x.rolling(14, min_periods=14).std(ddof=0).shift(1)`, flags the indices
with `(x - m)/(s + EPSILON) > z_threshold` (NaN comparisons are false, so
only indices with a full trailing window are flagged), and then walks the
flagged indices in increasing order replacing `x[idx]` in place whenever
additionally `m[idx] > min_mean_to_consider`. -/

def listMean (l : List ℚ) : ℚ := l.sum / l.length

/-- Population variance (`ddof=0`). -/
def listPopVar (l : List ℚ) : ℚ := ((l.map fun v => (v - listMean l) ^ 2).sum) / l.length

/-- The trailing window `x[idx-14 .. idx-1]` feeding `m`/`s` at position `idx`
(meaningful when `LOCAL_LOOKBACK_WINDOW ≤ idx < x.length`). -/
def trailingWindow (x : List ℚ) (idx : ℕ) : List ℚ :=
  (x.drop (idx - LOCAL_LOOKBACK_WINDOW)).take LOCAL_LOOKBACK_WINDOW

def trailingMean (x : List ℚ) (idx : ℕ) : ℚ := listMean (trailingWindow x idx)

def trailingVar (x : List ℚ) (idx : ℕ) : ℚ := listPopVar (trailingWindow x idx)

/-- Decides `(xv - m) / (sqrt v + EPSILON) > Z_THRESHOLD` exactly over ℚ,
where `sqrt v` is the (irrational) population standard deviation.  For
`0 ≤ v` this inequality is equivalent to `0 < d ∧ Z_THRESHOLD^2 * v < d^2`
with `d := xv - m - Z_THRESHOLD * EPSILON`; the equivalence with the real
formula is proved in `zExceeds_iff_real` below. -/
def zExceeds (xv m v : ℚ) : Bool :=
  let d := xv - m - Z_THRESHOLD * EPSILON
  decide (0 < d) && decide (Z_THRESHOLD ^ 2 * v < d ^ 2)

/-- `idx ∈ np.where(z_score > z_threshold)[0]`: needs a full trailing window
(otherwise `m`,`s` are NaN and the comparison is false) and the z test. -/
def zFlag (x : List ℚ) (idx : ℕ) : Bool :=
  decide (LOCAL_LOOKBACK_WINDOW ≤ idx) && decide (idx < x.length) &&
    zExceeds (x.getD idx 0) (trailingMean x idx) (trailingVar x idx)

/-- The in-loop guard `m[idx] > min_mean_to_consider`. -/
def meanGuard (x : List ℚ) (idx : ℕ) : Bool :=
  decide (MIN_MEAN_TO_CONSIDER < trailingMean x idx)

/-- An index is actually replaced iff it is z-flagged and passes the mean guard. -/
def outlierTrigger (x : List ℚ) (idx : ℕ) : Bool := zFlag x idx && meanGuard x idx

/-- `x[idx] = np.mean([x[idx-1], x[idx+1]])`, falling back to `x[idx-1]`
when `idx` is the last position (the source catches the indexing error). -/
def replacementAt (cur : List ℚ) (idx : ℕ) : ℚ :=
  if idx + 1 < cur.length then (cur.getD (idx - 1) 0 + cur.getD (idx + 1) 0) / 2
  else cur.getD (idx - 1) 0

/-- The sequential in-place replacement loop over the flagged indices.
Returns the final series together with `changed_idx`. -/
def replace_outliers (x : List ℚ) : List ℚ × List ℕ :=
  let possible := (List.range x.length).filter fun i => zFlag x i
  possible.foldl
    (fun acc i =>
      if meanGuard x i then (acc.1.set i (replacementAt acc.1 i), acc.2 ++ [i]) else acc)
    (x, [])

/-- Pure replacement pass over an explicit list of indices. -/
def applyChanges (cur : List ℚ) (l : List ℕ) : List ℚ :=
  l.foldl (fun c i => c.set i (replacementAt c i)) cur

/-- Models the fact that `x[idx] = ...` assigns into the Series object the
caller passed: after the call, the caller's series holds the output values. -/
def caller_series_after_call (x : List ℚ) : List ℚ := (replace_outliers x).1

/-! ### `get_timeseries` / `get_available_timeseries` -/

inductive TimeseriesType where
  | NEW_CASES
  | RAW_NEW_CASES
  | NEW_DEATHS
  | RAW_NEW_DEATHS
  | NEW_HOSPITALIZATIONS
  | CURRENT_HOSPITALIZATIONS
deriving DecidableEq, Repr

inductive HospitalizationDataType where
  | CURRENT_HOSPITALIZATIONS
  | CUMULATIVE_HOSPITALIZATIONS
deriving DecidableEq, Repr

/-- The per-engine series state loaded in `__init__` and read by
`get_timeseries` / `get_available_timeseries`. -/
structure EngineState where
  case_dates : List ℤ
  times : List ℤ
  observed_new_cases : List ℚ
  raw_new_case_dates : List ℤ
  times_raw_new_cases : List ℤ
  raw_new_cases : List ℚ
  observed_new_deaths : List ℚ
  hospital_dates : List ℤ
  hospital_times : List ℤ
  hospitalizations : List ℚ
  hospitalization_data_type : Option HospitalizationDataType
  min_cases : ℚ
  min_deaths : ℚ
deriving DecidableEq

/-- Python truthiness of a non-None enum member: always `true`.  The source
line `elif timeseries_type is TimeseriesType.NEW_DEATHS or
TimeseriesType.RAW_NEW_DEATHS:` parses as
`(ts is NEW_DEATHS) or bool(RAW_NEW_DEATHS)`, and a plain enum member is
truthy. -/
def enumTruthy (_ : TimeseriesType) : Bool := true

/-- `RtInferenceEngine.get_timeseries`; a fall-through of all branches would
return Python `None`, modelled by `none`. -/
def get_timeseries (st : EngineState) (ts : TimeseriesType) :
    Option (List ℤ × List ℤ × List ℚ) :=
  if ts = TimeseriesType.NEW_CASES then
    some (st.case_dates, st.times, st.observed_new_cases)
  else if ts = TimeseriesType.RAW_NEW_CASES then
    some (st.raw_new_case_dates, st.times_raw_new_cases, st.raw_new_cases)
  else if ts = TimeseriesType.NEW_DEATHS ∨ enumTruthy TimeseriesType.RAW_NEW_DEATHS = true then
    some (st.case_dates, st.times, st.observed_new_deaths)
  else if ts = TimeseriesType.NEW_HOSPITALIZATIONS ∨ ts = TimeseriesType.CURRENT_HOSPITALIZATIONS then
    some (st.hospital_dates, st.hospital_times, st.hospitalizations)
  else none

/-- Index 2 (`IDX_OF_COUNTS`) of a `get_timeseries` result. -/
def seriesCounts (o : Option (List ℤ × List ℤ × List ℚ)) : List ℚ :=
  (o.map fun t => t.2.2).getD []

/-- `RtInferenceEngine.get_available_timeseries`.  Notes on the source:
* `np.sum(cases) > self.min_cases` and `np.sum(deaths) > self.min_deaths`
  are strict comparisons of the series totals;
* the hospitalization conditions read `len(hosps > 3)`: `hosps > 3` is an
  elementwise boolean array of the same length as `hosps`, so the guard is
  the Python truthiness of that length, i.e. `hosps` being nonempty — the
  `> 3` comparison never influences the decision;
* `hosps` itself comes from `get_timeseries(NEW_HOSPITALIZATIONS)`, which
  (see `get_timeseries` above) falls into the deaths branch. -/
def get_available_timeseries (st : EngineState) : List TimeseriesType :=
  let cases := seriesCounts (get_timeseries st TimeseriesType.NEW_CASES)
  let deaths := seriesCounts (get_timeseries st TimeseriesType.NEW_DEATHS)
  let hosps := seriesCounts (get_timeseries st TimeseriesType.NEW_HOSPITALIZATIONS)
  (if st.min_cases < cases.sum then
      [TimeseriesType.NEW_CASES, TimeseriesType.RAW_NEW_CASES] else [])
  ++ (if st.min_deaths < deaths.sum then
      [TimeseriesType.NEW_DEATHS, TimeseriesType.RAW_NEW_DEATHS] else [])
  ++ (if st.hospitalization_data_type = some HospitalizationDataType.CURRENT_HOSPITALIZATIONS
        ∧ hosps.length ≠ 0 then
      [TimeseriesType.NEW_HOSPITALIZATIONS]
    else if st.hospitalization_data_type = some HospitalizationDataType.CUMULATIVE_HOSPITALIZATIONS
        ∧ hosps.length ≠ 0 then
      [TimeseriesType.NEW_HOSPITALIZATIONS]
    else [])

/-! ### `get_posteriors`

The likelihood matrix (`sps.poisson.pmf` values), the unnormalized process
matrix (`sps.norm(...).pdf` values) and the unnormalized priors
(`sps.gamma(...).pdf` values) are transcendental library outputs; they enter
the embedding as rational parameters, with their nonnegativity (they are
pdf/pmf evaluations) as hypotheses of the theorems. -/

/-- `prior0 /= prior0.sum()` (and likewise for `reinit_prior`). -/
def normalizeVec {n : ℕ} (g : Fin n → ℚ) : Fin n → ℚ := fun i => g i / ∑ j, g j

/-- `process_matrix /= process_matrix.sum(axis=0)`: column normalization of
the Gaussian kernel matrix `G`. -/
def process_matrix {n : ℕ} (G : Fin n → Fin n → ℚ) : Fin n → Fin n → ℚ :=
  fun i j => G i j / ∑ k, G k j

/-- `current_prior = process_matrix @ posteriors[previous_day]`. -/
def current_prior {n : ℕ} (P : Fin n → Fin n → ℚ) (post : Fin n → ℚ) : Fin n → ℚ :=
  fun i => ∑ j, P i j * post j

/-- `denominator = np.sum(numerator)` for one update day. -/
def step_denominator {n : ℕ} (P : Fin n → Fin n → ℚ) (like prev : Fin n → ℚ) : ℚ :=
  ∑ i, like i * current_prior P prev i

/-- One iteration of the Bayes loop: reinitialize on a degenerate day,
otherwise normalize. -/
def bayes_step {n : ℕ} (P : Fin n → Fin n → ℚ) (reinit : Fin n → ℚ)
    (like prev : Fin n → ℚ) : Fin n → ℚ :=
  let numerator := fun i => like i * current_prior P prev i
  let denominator := ∑ i, numerator i
  if denominator = 0 then reinit else fun i => numerator i / denominator

/-- The posterior sequence: day 0 carries the seeded prior, day `t+1` is the
Bayes update of day `t` against the likelihood column of day `t+1`. -/
def get_posteriors {n : ℕ} (P : Fin n → Fin n → ℚ) (prior0 reinit : Fin n → ℚ)
    (like : ℕ → Fin n → ℚ) : ℕ → Fin n → ℚ
  | 0 => prior0
  | t + 1 => bayes_step P reinit (like (t + 1)) (get_posteriors P prior0 reinit like t)

/-- The arguments passed to `np.log` by the accumulation
`log_likelihood += np.log(denominator)`: the source executes that line on
*every* loop iteration (it sits after the `if denominator == 0` block,
outside it), so every update day contributes its `denominator`, zero or
not.  `T` is the number of points of the smoothed series. -/
def logged_denominators {n : ℕ} (P : Fin n → Fin n → ℚ) (prior0 reinit : Fin n → ℚ)
    (like : ℕ → Fin n → ℚ) (T : ℕ) : List ℚ :=
  (List.range (T - 1)).map fun k =>
    step_denominator P (like (k + 1)) (get_posteriors P prior0 reinit like k)

/-! ### `highest_density_interval` -/

/-- `posteriors.values.cumsum(axis=0)` at grid row `i` of one day's column. -/
def cdfAt {n : ℕ} (p : Fin n → ℚ) (i : Fin n) : ℚ :=
  ∑ j, if j ≤ i then p j else 0

/-- The set of global minimizers of `f`. -/
def argminSet {m : ℕ} (f : Fin (m + 1) → ℚ) : Finset (Fin (m + 1)) :=
  Finset.univ.filter fun i => ∀ j, f i ≤ f j

/-- `np.argmin f`: the first (least) index attaining the minimum of `f`. -/
def firstArgmin {m : ℕ} (f : Fin (m + 1) → ℚ) : Fin (m + 1) :=
  (argminSet f).min' (by
    obtain ⟨i, _, hi⟩ := Finset.exists_min_image Finset.univ f ⟨0, Finset.mem_univ 0⟩
    exact ⟨i, Finset.mem_filter.mpr ⟨Finset.mem_univ i, fun j => hi j (Finset.mem_univ j)⟩⟩)

/-- One day's credible-interval bounds: the R-grid values at the indices
whose cumulative posterior is closest (first-closest, as `np.argmin`) to
`1 - ci` and to `ci`. -/
def highest_density_interval {m : ℕ} (r : Fin (m + 1) → ℚ) (p : Fin (m + 1) → ℚ)
    (ci : ℚ) : ℚ × ℚ :=
  (r (firstArgmin fun i => |cdfAt p i - (1 - ci)|),
   r (firstArgmin fun i => |cdfAt p i - ci|))

/-! ### `infer_all`: lag window selection and composite columns -/

/-- The trailing-window selection of `infer_all` before `align_time_series`:
`last_idx = max(-21, -len(df))` followed by `.iloc[-last_idx:]`.  Since
`-last_idx = min(21, len(df)) ≥ 0`, `iloc` drops the *first*
`min(21, len(df))` rows of the merged column and keeps the rest. -/
def lag_window (col : List ℚ) (dfLen : ℕ) : List ℚ := col.drop (min 21 dfLen)

/-- The window the spec describes for the same step: the last
`min(21, length)` entries of the column ("last ≤ 21 days, or the whole
series if shorter"). -/
def lag_window_claim (col : List ℚ) : List ℚ := col.drop (col.length - min 21 col.length)

/-- The three columns of the merged table relevant to the composite step;
`none` at column level = column absent from `df_all`, `none` at cell level
= NaN. -/
structure DfAll where
  rt_map_cases : Option (List (Option ℚ))
  rt_map_deaths : Option (List (Option ℚ))
  rt_ci95_cases : Option (List (Option ℚ))
deriving DecidableEq

/-- Row-wise `np.nanmean` over the two MAP cells: NaN entries are ignored,
an all-NaN row stays NaN. -/
def nanmean2 : Option ℚ → Option ℚ → Option ℚ
  | some a, some b => some ((a + b) / 2)
  | some a, none => some a
  | none, some b => some b
  | none, none => none

/-- The composite block of `infer_all` (lines 604–617): first branch when
both MAP columns are present, second when only the cases column is; in both
the 95% band is copied from the cases series; otherwise no composite columns
are created.  Returns `(Rt_MAP_composite, Rt_ci95_composite)`. -/
def composite_step (df : DfAll) : Option (List (Option ℚ)) × Option (List (Option ℚ)) :=
  match df.rt_map_deaths, df.rt_map_cases with
  | some d, some c => (some (List.zipWith nanmean2 c d), df.rt_ci95_cases)
  | none, some c => (some c, df.rt_ci95_cases)
  | _, none => (none, none)

/-! ### Concrete inputs used by witnesses and counterexamples -/

/-- A stable baseline with a single spike: the spike is replaced and its
replacement lowers the trailing window of the later point `100`, which a
second pass then flags. -/
def exSeries9 : List ℚ := List.replicate 14 6 ++ [1000000, 6, 100]

/-- A stable baseline with a single spike at index 14. -/
def exSeries10 : List ℚ := List.replicate 14 6 ++ [1000, 6]

/-- A stable baseline with a spike at index 14 (witness input for the
pointwise characterization). -/
def exSeries7 : List ℚ := List.replicate 14 6 ++ [900, 6]

/-- Engine state with an *empty* hospitalization series, a current-occupancy
tag, and a one-point deaths series. -/
def exState6 : EngineState :=
  { case_dates := [0], times := [0], observed_new_cases := [0]
    raw_new_case_dates := [0], times_raw_new_cases := [0], raw_new_cases := [0]
    observed_new_deaths := [1]
    hospital_dates := [], hospital_times := [], hospitalizations := []
    hospitalization_data_type := some HospitalizationDataType.CURRENT_HOSPITALIZATIONS
    min_cases := 5, min_deaths := 5 }

/-- Generic state for the `get_timeseries` witness. -/
def exState3 : EngineState :=
  { case_dates := [10, 11], times := [10, 11], observed_new_cases := [3, 4]
    raw_new_case_dates := [10, 11], times_raw_new_cases := [10, 11], raw_new_cases := [3, 5]
    observed_new_deaths := [1, 2]
    hospital_dates := [12], hospital_times := [12], hospitalizations := [7]
    hospitalization_data_type := some HospitalizationDataType.CUMULATIVE_HOSPITALIZATIONS
    min_cases := 5, min_deaths := 5 }

/-- Ten-point merged cases column (seen by the lag-window step of a
ten-row kind table). -/
def exCol5 : List ℚ := [1, 2, 3, 4, 5, 6, 7, 8, 9, 10]

/-- Merged table holding only a deaths MAP column. -/
def exDf4 : DfAll := { rt_map_cases := none, rt_map_deaths := some [some 1], rt_ci95_cases := none }

/-- Merged table holding both MAP columns and the cases band. -/
def exDf4w : DfAll :=
  { rt_map_cases := some [some 1, none]
    rt_map_deaths := some [some 2, some 3]
    rt_ci95_cases := some [some 9, some 9] }

/-- Degenerate-day likelihoods on a one-point grid: day 1 has an all-zero
likelihood column, so its `denominator` is exactly zero. -/
def exLike2 : ℕ → Fin 1 → ℚ := fun t _ => if t = 0 then 1 else 0

def exG2 : Fin 1 → Fin 1 → ℚ := fun _ _ => 1

def exPrior2 : Fin 1 → ℚ := fun _ => 1

/-! ## Helper lemmas -/

theorem foldl_pair_filter (p : ℕ → Bool) (f : List ℚ → ℕ → List ℚ) :
    ∀ (l : List ℕ) (a : List ℚ) (c : List ℕ),
      l.foldl (fun acc i => if p i then (f acc.1 i, acc.2 ++ [i]) else acc) (a, c) =
        ((l.filter p).foldl f a, c ++ l.filter p)
  | [], a, c => by simp
  | i :: l, a, c => by
    by_cases hp : p i
    · simp only [List.foldl_cons, hp, if_pos, List.filter_cons_of_pos hp]
      rw [foldl_pair_filter p f l (f a i) (c ++ [i])]
      simp
    · simp only [List.foldl_cons, hp, if_neg, List.filter_cons_of_neg hp]
      exact foldl_pair_filter p f l a c

/-- The loop of `replace_outliers` in closed form: it applies the replacement
pass to exactly the indices that are z-flagged and pass the mean guard, and
returns those indices as `changed_idx`. -/
theorem replace_outliers_eq (x : List ℚ) :
    replace_outliers x =
      (applyChanges x ((List.range x.length).filter fun i => outlierTrigger x i),
        (List.range x.length).filter fun i => outlierTrigger x i) := by
  rw [replace_outliers]
  rw [foldl_pair_filter (fun i => meanGuard x i)
    (fun c i => c.set i (replacementAt c i)) _ x []]
  have hfilter : ((List.range x.length).filter fun i => zFlag x i).filter
      (fun i => meanGuard x i) = (List.range x.length).filter fun i => outlierTrigger x i := by
    rw [List.filter_filter]
    simp only [outlierTrigger]
    exact List.filter_congr fun a _ => Bool.and_comm _ _
  rw [hfilter, applyChanges]
  simp

theorem getD_set_ne (l : List ℚ) (i j : ℕ) (v : ℚ) (h : i ≠ j) :
    (l.set i v).getD j 0 = l.getD j 0 := by
  simp [List.getD_eq_getElem?_getD, List.getElem?_set_ne h]

theorem getD_set_self (l : List ℚ) (i : ℕ) (v : ℚ) (h : i < l.length) :
    (l.set i v).getD i 0 = v := by
  simp [List.getD_eq_getElem?_getD, List.getElem?_set_self h]

theorem applyChanges_length (l : List ℕ) : ∀ cur : List ℚ, (applyChanges cur l).length = cur.length := by
  induction l with
  | nil => intro cur; rfl
  | cons i l ih => intro cur; rw [applyChanges, List.foldl_cons, ← applyChanges, ih]; simp

theorem applyChanges_getD_of_not_mem (l : List ℕ) :
    ∀ (cur : List ℚ) (j : ℕ), j ∉ l → (applyChanges cur l).getD j 0 = cur.getD j 0 := by
  induction l with
  | nil => intro cur j _; rfl
  | cons i l ih =>
    intro cur j hj
    rw [applyChanges, List.foldl_cons, ← applyChanges]
    rw [ih _ j (fun h => hj (List.mem_cons_of_mem i h))]
    exact getD_set_ne cur i j _ fun h => hj (h ▸ List.mem_cons_self i l)

theorem applyChanges_append (cur : List ℚ) (l1 l2 : List ℕ) :
    applyChanges cur (l1 ++ l2) = applyChanges (applyChanges cur l1) l2 :=
  List.foldl_append _ _ _ _

/-- Value at a processed index: the pass in increasing index order writes, at
index `i`, the replacement computed from the series state after all smaller
indices were already replaced; larger indices never touch position `i`
again. -/
theorem applyChanges_getD_of_mem (x : List ℚ) (S l1 l2 : List ℕ) (i : ℕ)
    (hsplit : S = l1 ++ i :: l2) (hl2 : ∀ b ∈ l2, i < b) (hi : i < x.length) :
    (applyChanges x S).getD i 0 = replacementAt (applyChanges x l1) i := by
  subst hsplit
  rw [applyChanges_append]
  rw [show applyChanges (applyChanges x l1) (i :: l2) =
      applyChanges ((applyChanges x l1).set i (replacementAt (applyChanges x l1) i)) l2 from rfl]
  rw [applyChanges_getD_of_not_mem l2 _ i (fun h => lt_irrefl i (hl2 i h))]
  exact getD_set_self _ i _ (by rw [applyChanges_length]; exact hi)

theorem normalizeVec_spec {n : ℕ} (g : Fin n → ℚ) (hg : ∀ i, 0 ≤ g i)
    (hs : 0 < ∑ i, g i) :
    (∀ i, 0 ≤ normalizeVec g i) ∧ (∑ i, normalizeVec g i) = 1 := by
  constructor
  · intro i; exact div_nonneg (hg i) hs.le
  · rw [show (∑ i, normalizeVec g i) = ∑ i, g i / ∑ j, g j from rfl]
    rw [← Finset.sum_div]
    exact div_self hs.ne'

theorem get_posteriors_invariant {n : ℕ} (G : Fin n → Fin n → ℚ) (g0 gr : Fin n → ℚ)
    (like : ℕ → Fin n → ℚ) (hG : ∀ i j, 0 ≤ G i j) (hg0 : ∀ i, 0 ≤ g0 i)
    (hg0s : 0 < ∑ i, g0 i) (hgr : ∀ i, 0 ≤ gr i) (hgrs : 0 < ∑ i, gr i)
    (hlike : ∀ t i, 0 ≤ like t i) (t : ℕ) :
    (∀ i, 0 ≤ get_posteriors (process_matrix G) (normalizeVec g0) (normalizeVec gr) like t i) ∧
      (∑ i, get_posteriors (process_matrix G) (normalizeVec g0) (normalizeVec gr) like t i) = 1 := by
  induction t with
  | zero => exact normalizeVec_spec g0 hg0 hg0s
  | succ t ih =>
    have hP : ∀ i j, 0 ≤ process_matrix G i j := fun i j =>
      div_nonneg (hG i j) (Finset.sum_nonneg fun k _ => hG k j)
    have hcp : ∀ i, 0 ≤ current_prior (process_matrix G)
        (get_posteriors (process_matrix G) (normalizeVec g0) (normalizeVec gr) like t) i :=
      fun i => Finset.sum_nonneg fun j _ => mul_nonneg (hP i j) (ih.1 j)
    have hnum : ∀ i, 0 ≤ like (t + 1) i * current_prior (process_matrix G)
        (get_posteriors (process_matrix G) (normalizeVec g0) (normalizeVec gr) like t) i :=
      fun i => mul_nonneg (hlike _ i) (hcp i)
    rw [show get_posteriors (process_matrix G) (normalizeVec g0) (normalizeVec gr) like (t + 1) =
        bayes_step (process_matrix G) (normalizeVec gr) (like (t + 1))
          (get_posteriors (process_matrix G) (normalizeVec g0) (normalizeVec gr) like t) from rfl]
    rw [bayes_step]
    by_cases hD : (∑ i, like (t + 1) i * current_prior (process_matrix G)
        (get_posteriors (process_matrix G) (normalizeVec g0) (normalizeVec gr) like t) i) = 0
    · rw [if_pos hD]; exact normalizeVec_spec gr hgr hgrs
    · rw [if_neg hD]
      have hDpos : 0 < ∑ i, like (t + 1) i * current_prior (process_matrix G)
          (get_posteriors (process_matrix G) (normalizeVec g0) (normalizeVec gr) like t) i :=
        lt_of_le_of_ne (Finset.sum_nonneg fun i _ => hnum i) (Ne.symm hD)
      refine ⟨fun i => div_nonneg (hnum i) hDpos.le, ?_⟩
      rw [← Finset.sum_div]
      exact div_self hD

/-! ## Claim theorems -/

/-- C3: for every timeseries type other than NEW_CASES and RAW_NEW_CASES —
in particular for the two hospitalization types — `get_timeseries` returns
the *deaths* dates, times and counts, because the condition
`timeseries_type is TimeseriesType.NEW_DEATHS or TimeseriesType.RAW_NEW_DEATHS`
is always true (the second disjunct is a truthy enum member), making the
hospitalization branch unreachable. -/
theorem get_timeseries_defaults_to_deaths (st : EngineState) (ts : TimeseriesType)
    (h1 : ts ≠ TimeseriesType.NEW_CASES) (h2 : ts ≠ TimeseriesType.RAW_NEW_CASES) :
    get_timeseries st ts = some (st.case_dates, st.times, st.observed_new_deaths) := by
  rw [get_timeseries, if_neg h1, if_neg h2,
    if_pos (show ts = TimeseriesType.NEW_DEATHS ∨
      enumTruthy TimeseriesType.RAW_NEW_DEATHS = true from Or.inr rfl)]

theorem get_timeseries_defaults_to_deaths_witness :
    get_timeseries exState3 TimeseriesType.NEW_HOSPITALIZATIONS =
      some (exState3.case_dates, exState3.times, exState3.observed_new_deaths) :=
  get_timeseries_defaults_to_deaths exState3 TimeseriesType.NEW_HOSPITALIZATIONS
    (by simp) (by simp)

/-- C4 counterexample: in a merged table holding only the deaths MAP column
(no cases column), the composite block of `infer_all` takes neither branch,
so no composite is produced at all — the composite does not equal the
deaths MAP as the claim would require for a table where only one kind is
present. -/
theorem composite_absent_for_deaths_only :
    exDf4.rt_map_cases = none ∧ exDf4.rt_map_deaths = some [some 1] ∧
      (composite_step exDf4).1 = none ∧ (composite_step exDf4).1 ≠ exDf4.rt_map_deaths := by
  refine ⟨rfl, rfl, rfl, ?_⟩
  rw [show (composite_step exDf4).1 = none from rfl, show exDf4.rt_map_deaths = some [some 1] from rfl]
  simp

/-- C4 amended: when both MAP columns are present the composite is the
row-wise `nanmean` of the two (the mean of the available values on each
date), and when only the cases column is present the composite equals the
cases MAP; in both of these cases the 95% band is copied from the cases
series.  (When only deaths is present, no composite is produced — see the
counterexample.) -/
theorem composite_mean_and_cases_band (df : DfAll) (c : List (Option ℚ))
    (hc : df.rt_map_cases = some c) :
    (∀ d, df.rt_map_deaths = some d →
      (composite_step df).1 = some (List.zipWith nanmean2 c d) ∧
        (composite_step df).2 = df.rt_ci95_cases) ∧
    (df.rt_map_deaths = none →
      (composite_step df).1 = some c ∧ (composite_step df).2 = df.rt_ci95_cases) ∧
    (∀ a b : ℚ, nanmean2 (some a) (some b) = some ((a + b) / 2) ∧
      nanmean2 (some a) none = some a ∧ nanmean2 none (some b) = some b) := by
  refine ⟨?_, ?_, fun a b => ⟨rfl, rfl, rfl⟩⟩
  · intro d hd
    unfold composite_step
    rw [hd, hc]
    exact ⟨rfl, rfl⟩
  · intro hd
    unfold composite_step
    rw [hd, hc]
    exact ⟨rfl, rfl⟩

theorem composite_mean_and_cases_band_witness :
    (composite_step exDf4w).1 = some (List.zipWith nanmean2 [some 1, none] [some 2, some 3]) :=
  ((composite_mean_and_cases_band exDf4w [some 1, none] rfl).1 [some 2, some 3] rfl).1

/-- C5: on a ten-point table the window handed to `align_time_series` is
*empty* — `iloc[-last_idx:]` with `last_idx = max(-21, -len(df))` drops the
first `min(21, len(df))` rows instead of keeping the last ones — while the
window the claim (and the source's own comment) describes is the whole
ten-point series. -/
theorem lag_window_empty_for_short_series :
    lag_window exCol5 10 = [] ∧ lag_window_claim exCol5 = exCol5 := by
  constructor <;> rfl

/-- C6: with a *zero-point* hospitalization series (but a current-occupancy
type tag and a nonempty deaths series) the engine still schedules
NEW_HOSPITALIZATIONS for inference: `len(hosps > 3)` is the length of an
elementwise boolean array — truthy whenever the array is nonempty — so the
"more than 3 points" requirement of the claim is never enforced (and the
length inspected is that of the deaths series, by the `get_timeseries`
fallthrough). -/
theorem hospitalization_included_without_points :
    exState6.hospitalizations = [] ∧
      get_available_timeseries exState6 = [TimeseriesType.NEW_HOSPITALIZATIONS] := by
  refine ⟨rfl, ?_⟩
  have hc : seriesCounts (get_timeseries exState6 TimeseriesType.NEW_CASES) = [0] := rfl
  have hd : seriesCounts (get_timeseries exState6 TimeseriesType.NEW_DEATHS) = [1] := rfl
  have hh : seriesCounts (get_timeseries exState6 TimeseriesType.NEW_HOSPITALIZATIONS) = [1] := rfl
  rw [get_available_timeseries, hc, hd, hh]
  norm_num [exState6]

/-- C2 counterexample: a run with a degenerate second day (all-zero
likelihood column, so `denominator = 0`) still contributes its zero
normalizing constant to the log-likelihood accumulation — the list of
arguments handed to `np.log` contains `0` and is not equal to its
nonzero filtering, contradicting the claim that degenerate days are
skipped/guarded. -/
theorem log_likelihood_includes_zero_denominator :
    (0 : ℚ) ∈ logged_denominators exG2 exPrior2 exPrior2 exLike2 2 ∧
      logged_denominators exG2 exPrior2 exPrior2 exLike2 2 ≠
        (logged_denominators exG2 exPrior2 exPrior2 exLike2 2).filter fun z =>
          decide (z ≠ 0) := by
  norm_num [logged_denominators, step_denominator, current_prior, get_posteriors, bayes_step,
    normalizeVec, process_matrix, exG2, exPrior2, exLike2, Fin.sum_univ_one, List.range_succ]

/-- C2 amended: `log_likelihood += np.log(denominator)` runs on *every*
iteration of the Bayes loop — each update day from the second point on
contributes its normalizing constant to the accumulated log-likelihood,
including degenerate days whose constant is exactly zero (which therefore
contribute `log(0) = -inf`). -/
theorem log_likelihood_logs_every_denominator {n : ℕ} (P : Fin n → Fin n → ℚ)
    (prior0 reinit : Fin n → ℚ) (like : ℕ → Fin n → ℚ) (T t : ℕ)
    (h1 : 1 ≤ t) (h2 : t < T) :
    step_denominator P (like t) (get_posteriors P prior0 reinit like (t - 1)) ∈
      logged_denominators P prior0 reinit like T := by
  obtain ⟨k, rfl⟩ : ∃ k, t = k + 1 := ⟨t - 1, by omega⟩
  rw [logged_denominators, Nat.add_sub_cancel]
  exact List.mem_map_of_mem _ (List.mem_range.mpr (by omega))

theorem log_likelihood_logs_every_denominator_witness :
    step_denominator exG2 (exLike2 1) (get_posteriors exG2 exPrior2 exPrior2 exLike2 (1 - 1)) ∈
      logged_denominators exG2 exPrior2 exPrior2 exLike2 2 :=
  log_likelihood_logs_every_denominator exG2 exPrior2 exPrior2 exLike2 2 1
    (by norm_num) (by norm_num)

/-- C1: every distribution in the posterior sequence — the seeded first-day
prior, every normalized Bayes update, and every reinitialized day — has all
entries nonnegative and sums to 1 within the 1e-9 tolerance (in the exact
rational embedding the sum is exactly 1).  The pdf/pmf inputs are
nonnegative and the two gamma priors have positive mass, as scipy
guarantees. -/
theorem posteriors_sum_one_nonneg {n : ℕ} (G : Fin n → Fin n → ℚ) (g0 gr : Fin n → ℚ)
    (like : ℕ → Fin n → ℚ) (T t : ℕ) (hG : ∀ i j, 0 ≤ G i j) (hg0 : ∀ i, 0 ≤ g0 i)
    (hg0s : 0 < ∑ i, g0 i) (hgr : ∀ i, 0 ≤ gr i) (hgrs : 0 < ∑ i, gr i)
    (hlike : ∀ s i, 0 ≤ like s i) (hT : 2 ≤ T) (ht : t < T) :
    (∀ i, 0 ≤ get_posteriors (process_matrix G) (normalizeVec g0) (normalizeVec gr) like t i) ∧
      |(∑ i, get_posteriors (process_matrix G) (normalizeVec g0) (normalizeVec gr) like t i) - 1|
        ≤ 1 / 1000000000 := by
  obtain ⟨hpos, hsum⟩ :=
    get_posteriors_invariant G g0 gr like hG hg0 hg0s hgr hgrs hlike t
  exact ⟨hpos, by rw [hsum]; norm_num⟩

theorem posteriors_sum_one_nonneg_witness :
    (∀ i, 0 ≤ get_posteriors (process_matrix exG2) (normalizeVec exPrior2)
        (normalizeVec exPrior2) exLike2 1 i) ∧
      |(∑ i, get_posteriors (process_matrix exG2) (normalizeVec exPrior2)
          (normalizeVec exPrior2) exLike2 1 i) - 1| ≤ 1 / 1000000000 :=
  posteriors_sum_one_nonneg exG2 exPrior2 exPrior2 exLike2 2 1
    (fun i j => by norm_num [exG2]) (fun i => by norm_num [exPrior2])
    (by norm_num [exPrior2, Fin.sum_univ_one]) (fun i => by norm_num [exPrior2])
    (by norm_num [exPrior2, Fin.sum_univ_one]) (fun s i => by simp [exLike2]; split <;> norm_num)
    (by norm_num) (by norm_num)

set_option maxHeartbeats 4000000 in
/-- C9 counterexample: on a stable baseline with a huge spike followed two
positions later by a moderate value, the first pass replaces only the spike
(the moderate value's z-score is damped by the spike sitting in its trailing
window), but on the output the spike is gone from that window, so a second
pass replaces the moderate value too: `replace_outliers` is not
idempotent. -/
theorem replace_outliers_not_idempotent :
    (replace_outliers (replace_outliers exSeries9).1).1 ≠ (replace_outliers exSeries9).1 := by
  norm_num [replace_outliers, zFlag, meanGuard, zExceeds,
    trailingMean, trailingVar, listMean, listPopVar, trailingWindow, exSeries9,
    LOCAL_LOOKBACK_WINDOW, Z_THRESHOLD, MIN_MEAN_TO_CONSIDER, EPSILON, List.replicate,
    List.range_succ, replacementAt]

/-- C9 amended: `replace_outliers` is not idempotent in general — a
replacement alters the trailing windows of later points and a second pass
can trigger further replacements (see the counterexample).  When the first
pass triggers no replacement (`changed_idx` is empty), the output equals
the input and a second pass changes nothing.  This condition is sufficient
only: a pass that does replace a point (an isolated spike, say) can still
happen to be idempotent. -/
theorem replace_outliers_idempotent_of_no_trigger (x : List ℚ)
    (h : (replace_outliers x).2 = []) :
    (replace_outliers x).1 = x ∧
      (replace_outliers (replace_outliers x).1).1 = (replace_outliers x).1 := by
  have hfilter : ((List.range x.length).filter fun i => outlierTrigger x i) = [] := by
    rw [replace_outliers_eq] at h; exact h
  have hfix : (replace_outliers x).1 = x := by
    rw [replace_outliers_eq]
    show applyChanges x ((List.range x.length).filter fun i => outlierTrigger x i) = x
    rw [hfilter]
    rfl
  refine ⟨hfix, ?_⟩
  rw [hfix]
  exact hfix

theorem replace_outliers_idempotent_of_no_trigger_witness :
    (replace_outliers [1, 2, 3]).1 = [1, 2, 3] ∧
      (replace_outliers (replace_outliers [1, 2, 3]).1).1 = (replace_outliers [1, 2, 3]).1 :=
  replace_outliers_idempotent_of_no_trigger [1, 2, 3] rfl

set_option maxHeartbeats 4000000 in
/-- C10 counterexample: `replace_outliers` assigns into the Series object it
is given (`x[idx] = ...`), so after the call the caller's series holds the
filtered values, not its original ones: with a spike in the series the
post-call values differ from the pre-call values. -/
theorem caller_series_mutated : caller_series_after_call exSeries10 ≠ exSeries10 := by
  norm_num [caller_series_after_call, replace_outliers, zFlag, meanGuard, zExceeds,
    trailingMean, trailingVar, listMean, listPopVar, trailingWindow, exSeries10,
    LOCAL_LOOKBACK_WINDOW, Z_THRESHOLD, MIN_MEAN_TO_CONSIDER, EPSILON, List.replicate,
    List.range_succ, replacementAt]

/-- C10 amended: the outlier filter mutates the series passed to it, but the
mutation is exactly the triggered replacements: after the call the caller's
series still holds its original value at every index the filter did not
replace (every index not in `changed_idx`). -/
theorem caller_series_preserved_off_changed (x : List ℚ) (i : ℕ)
    (h : i ∉ (replace_outliers x).2) :
    (caller_series_after_call x).getD i 0 = x.getD i 0 := by
  have h' : i ∉ (List.range x.length).filter fun j => outlierTrigger x j := by
    rw [replace_outliers_eq] at h; exact h
  rw [caller_series_after_call, replace_outliers_eq]
  exact applyChanges_getD_of_not_mem _ x i h'

theorem caller_series_preserved_off_changed_witness :
    (caller_series_after_call [5]).getD 0 0 = ([5] : List ℚ).getD 0 0 :=
  caller_series_preserved_off_changed [5] 0 (by
    rw [show (replace_outliers [(5 : ℚ)]).2 = [] from rfl]
    exact List.not_mem_nil 0)

theorem listPopVar_nonneg (l : List ℚ) : 0 ≤ listPopVar l := by
  rw [listPopVar]
  apply div_nonneg
  · apply List.sum_nonneg
    intro a ha
    obtain ⟨v, _, rfl⟩ := List.mem_map.mp ha
    exact sq_nonneg _
  · exact Nat.cast_nonneg _

theorem trailingVar_nonneg (x : List ℚ) (idx : ℕ) : 0 ≤ trailingVar x idx :=
  listPopVar_nonneg _

/-- The rational test `zExceeds` decides exactly the real z-score inequality
`(xv - m) / (sqrt v + EPSILON) > Z_THRESHOLD`. -/
theorem zExceeds_iff_real (xv m v : ℚ) (hv : 0 ≤ v) :
    zExceeds xv m v = true ↔
      ((Z_THRESHOLD : ℚ) : ℝ) <
        ((xv : ℝ) - (m : ℝ)) / (Real.sqrt (v : ℝ) + ((EPSILON : ℚ) : ℝ)) := by
  have hq : zExceeds xv m v = true ↔
      (0 < xv - m - Z_THRESHOLD * EPSILON ∧
        Z_THRESHOLD ^ 2 * v < (xv - m - Z_THRESHOLD * EPSILON) ^ 2) := by
    simp [zExceeds]
  rw [hq]
  set s := Real.sqrt (v : ℝ) with hsdef
  have hs : 0 ≤ s := Real.sqrt_nonneg _
  have hs2 : s ^ 2 = (v : ℝ) := Real.sq_sqrt (by exact_mod_cast hv)
  have hε : (0 : ℝ) < ((EPSILON : ℚ) : ℝ) := by
    rw [EPSILON]; norm_num
  have hZ : ((Z_THRESHOLD : ℚ) : ℝ) = 10 := by rw [Z_THRESHOLD]; norm_num
  have hden : (0 : ℝ) < s + ((EPSILON : ℚ) : ℝ) := by linarith
  rw [lt_div_iff₀ hden]
  have hcast : ∀ a b : ℚ, (a < b) ↔ ((a : ℝ) < (b : ℝ)) := fun a b => by exact_mod_cast Iff.rfl
  rw [hcast, hcast]
  push_cast
  rw [hZ]
  constructor
  · rintro ⟨hd0, hsq⟩
    nlinarith [hs, hs2, hd0, hsq]
  · intro h
    have hd0 : (0 : ℝ) < (xv : ℝ) - m - 10 * ((EPSILON : ℚ) : ℝ) := by nlinarith [hs]
    constructor
    · exact hd0
    · nlinarith [hs, hs2, hd0, h]

/-- The replacement condition in spec form: full trailing window, mean guard,
and the real z-score test. -/
theorem outlierTrigger_iff (x : List ℚ) (idx : ℕ) (hidx : idx < x.length) :
    outlierTrigger x idx = true ↔
      (LOCAL_LOOKBACK_WINDOW ≤ idx ∧ MIN_MEAN_TO_CONSIDER < trailingMean x idx ∧
        ((Z_THRESHOLD : ℚ) : ℝ) <
          ((x.getD idx 0 : ℝ) - (trailingMean x idx : ℝ)) /
            (Real.sqrt ((trailingVar x idx : ℚ) : ℝ) + ((EPSILON : ℚ) : ℝ))) := by
  rw [outlierTrigger, zFlag, meanGuard]
  simp only [Bool.and_eq_true, decide_eq_true_eq]
  rw [zExceeds_iff_real _ _ _ (trailingVar_nonneg x idx)]
  constructor
  · rintro ⟨⟨⟨hw, _⟩, hz⟩, hm⟩
    exact ⟨hw, hm, hz⟩
  · rintro ⟨hw, hm, hz⟩
    exact ⟨⟨⟨hw, hidx⟩, hz⟩, hm⟩

/-- C7: a point is replaced if and only if its trailing 14-point window is
full, its real z-score against the trailing mean and population standard
deviation (epsilon 1e-8 added to the denominator) strictly exceeds 10, and
the trailing mean strictly exceeds 5; points before the window is full are
never modified and untriggered points pass through unchanged; a replaced
point receives the average of its immediate neighbors — the left one as it
stands after earlier replacements, the right one from the input (later
indices are not yet processed) — or the left neighbor alone at the end of
the series. -/
theorem replace_outliers_pointwise_spec (x : List ℚ) (idx : ℕ) (hidx : idx < x.length) :
    (idx < LOCAL_LOOKBACK_WINDOW → ((replace_outliers x).1).getD idx 0 = x.getD idx 0) ∧
    (outlierTrigger x idx = false → ((replace_outliers x).1).getD idx 0 = x.getD idx 0) ∧
    (outlierTrigger x idx = true →
      ((replace_outliers x).1).getD idx 0 =
        if idx + 1 < x.length then
          (((replace_outliers x).1).getD (idx - 1) 0 + x.getD (idx + 1) 0) / 2
        else ((replace_outliers x).1).getD (idx - 1) 0) ∧
    (outlierTrigger x idx = true ↔
      (LOCAL_LOOKBACK_WINDOW ≤ idx ∧ MIN_MEAN_TO_CONSIDER < trailingMean x idx ∧
        ((Z_THRESHOLD : ℚ) : ℝ) <
          ((x.getD idx 0 : ℝ) - (trailingMean x idx : ℝ)) /
            (Real.sqrt ((trailingVar x idx : ℚ) : ℝ) + ((EPSILON : ℚ) : ℝ)))) := by
  have hpass : outlierTrigger x idx = false →
      ((replace_outliers x).1).getD idx 0 = x.getD idx 0 := by
    intro h
    rw [replace_outliers_eq]
    apply applyChanges_getD_of_not_mem
    intro hmem
    rw [List.mem_filter] at hmem
    rw [h] at hmem
    exact Bool.false_ne_true hmem.2
  refine ⟨?_, hpass, ?_, outlierTrigger_iff x idx hidx⟩
  · intro hlt
    apply hpass
    rw [outlierTrigger, zFlag]
    rw [decide_eq_false (Nat.not_le.mpr hlt)]
    rfl
  · intro htrig
    have hiS : idx ∈ (List.range x.length).filter fun i => outlierTrigger x i :=
      List.mem_filter.mpr ⟨List.mem_range.mpr hidx, htrig⟩
    obtain ⟨l1, l2, hsplit⟩ := List.append_of_mem hiS
    have hpw : ((List.range x.length).filter fun i => outlierTrigger x i).Pairwise (· < ·) :=
      (List.pairwise_lt_range x.length).filter _
    rw [hsplit] at hpw
    obtain ⟨_, hpw2, hcross⟩ := List.pairwise_append.mp hpw
    have hl1 : ∀ a ∈ l1, a < idx := fun a ha =>
      hcross a ha idx (List.mem_cons_self idx l2)
    have hl2 : ∀ b ∈ l2, idx < b := (List.pairwise_cons.mp hpw2).1
    have hwin : LOCAL_LOOKBACK_WINDOW ≤ idx :=
      ((outlierTrigger_iff x idx hidx).mp htrig).1
    have hidx1 : 1 ≤ idx := le_trans (by norm_num [LOCAL_LOOKBACK_WINDOW]) hwin
    have hmain : ((replace_outliers x).1).getD idx 0 =
        replacementAt (applyChanges x l1) idx := by
      rw [replace_outliers_eq]
      exact applyChanges_getD_of_mem x _ l1 l2 idx hsplit hl2 hidx
    have hlen : (applyChanges x l1).length = x.length := applyChanges_length l1 x
    have hright : (applyChanges x l1).getD (idx + 1) 0 = x.getD (idx + 1) 0 :=
      applyChanges_getD_of_not_mem l1 x (idx + 1)
        (fun hmem => absurd (hl1 _ hmem) (by omega))
    have hleft : ((replace_outliers x).1).getD (idx - 1) 0 =
        (applyChanges x l1).getD (idx - 1) 0 := by
      rw [replace_outliers_eq]
      show (applyChanges x ((List.range x.length).filter fun i => outlierTrigger x i)).getD
        (idx - 1) 0 = _
      rw [hsplit, applyChanges_append]
      apply applyChanges_getD_of_not_mem
      intro hmem
      rcases List.mem_cons.mp hmem with h | h
      · omega
      · exact absurd (hl2 _ h) (by omega)
    rw [hmain, replacementAt, hlen, hright, hleft]

theorem replace_outliers_pointwise_spec_witness :
    ((replace_outliers exSeries7).1).getD 0 0 = exSeries7.getD 0 0 :=
  (replace_outliers_pointwise_spec exSeries7 0
    (by norm_num [exSeries7])).1 (by norm_num [LOCAL_LOOKBACK_WINDOW])

theorem cdfAt_mono {n : ℕ} (p : Fin n → ℚ) (hp : ∀ i, 0 ≤ p i) {a b : Fin n}
    (hab : a ≤ b) : cdfAt p a ≤ cdfAt p b := by
  apply Finset.sum_le_sum
  intro j _
  by_cases hj : j ≤ a
  · rw [if_pos hj, if_pos (le_trans hj hab)]
  · rw [if_neg hj]
    by_cases hj' : j ≤ b
    · rw [if_pos hj']; exact hp j
    · rw [if_neg hj']

theorem firstArgmin_isMin {m : ℕ} (f : Fin (m + 1) → ℚ) (j : Fin (m + 1)) :
    f (firstArgmin f) ≤ f j := by
  have hmem : firstArgmin f ∈ argminSet f := Finset.min'_mem _ _
  exact (Finset.mem_filter.mp hmem).2 j

theorem firstArgmin_le {m : ℕ} (f : Fin (m + 1) → ℚ) {b : Fin (m + 1)}
    (hb : ∀ j, f b ≤ f j) : firstArgmin f ≤ b :=
  Finset.min'_le _ b (Finset.mem_filter.mpr ⟨Finset.mem_univ b, hb⟩)

/-- For `u ≤ v` and `s ≤ t`, pairing the larger point with the larger target
never increases the total distance. -/
theorem abs_pair_mono {u v s t : ℚ} (huv : u ≤ v) (hst : s ≤ t) :
    |v - t| + |u - s| ≤ |v - s| + |u - t| := by
  rcases abs_cases (v - t) with ⟨h1, p1⟩ | ⟨h1, p1⟩ <;>
    rcases abs_cases (u - s) with ⟨h2, p2⟩ | ⟨h2, p2⟩ <;>
      rcases abs_cases (v - s) with ⟨h3, p3⟩ | ⟨h3, p3⟩ <;>
        rcases abs_cases (u - t) with ⟨h4, p4⟩ | ⟨h4, p4⟩ <;>
          rw [h1, h2, h3, h4] <;> linarith

/-- `np.argmin |cdf - target|` over a nondecreasing cumulative sum is
monotone in the target, first-occurrence tie-breaking included. -/
theorem firstArgmin_abs_mono {m : ℕ} (p : Fin (m + 1) → ℚ) (hp : ∀ i, 0 ≤ p i)
    {t t' : ℚ} (htt : t ≤ t') :
    firstArgmin (fun i => |cdfAt p i - t|) ≤ firstArgmin (fun i => |cdfAt p i - t'|) := by
  by_contra hba
  push_neg at hba
  set a := firstArgmin (fun i => |cdfAt p i - t|) with ha_def
  set b := firstArgmin (fun i => |cdfAt p i - t'|) with hb_def
  have hcb : cdfAt p b ≤ cdfAt p a := cdfAt_mono p hp hba.le
  have hamin : ∀ j, |cdfAt p a - t| ≤ |cdfAt p j - t| :=
    firstArgmin_isMin (fun i => |cdfAt p i - t|)
  have hbmin : ∀ j, |cdfAt p b - t'| ≤ |cdfAt p j - t'| :=
    firstArgmin_isMin (fun i => |cdfAt p i - t'|)
  have key : |cdfAt p a - t'| + |cdfAt p b - t| ≤ |cdfAt p a - t| + |cdfAt p b - t'| :=
    abs_pair_mono hcb htt
  have h1 : |cdfAt p b - t| ≤ |cdfAt p a - t| := by
    have := hbmin a
    linarith
  have hbAll : ∀ j, |cdfAt p b - t| ≤ |cdfAt p j - t| := fun j => le_trans h1 (hamin j)
  have hab : a ≤ b := firstArgmin_le (fun i => |cdfAt p i - t|) hbAll
  exact absurd hba (not_lt.mpr hab)

/-- C8: for nested confidence levels `ci1 < ci2` in (0,1) the per-day
credible interval for `ci2` contains the one for `ci1` — the `ci2` low
bound is ≤ the `ci1` low bound and the `ci2` high bound is ≥ the `ci1`
high bound — for any day's posterior with nonnegative entries and any
monotone R grid. -/
theorem highest_density_interval_nested {m : ℕ} (r p : Fin (m + 1) → ℚ) (ci1 ci2 : ℚ)
    (hr : Monotone r) (hp : ∀ i, 0 ≤ p i) (h0 : 0 < ci1) (h12 : ci1 < ci2) (h1 : ci2 < 1) :
    (highest_density_interval r p ci2).1 ≤ (highest_density_interval r p ci1).1 ∧
      (highest_density_interval r p ci1).2 ≤ (highest_density_interval r p ci2).2 := by
  constructor
  · exact hr (firstArgmin_abs_mono p hp (by linarith))
  · exact hr (firstArgmin_abs_mono p hp h12.le)

theorem highest_density_interval_nested_witness :
    (highest_density_interval (fun i : Fin 2 => (i.1 : ℚ)) (fun _ => 1 / 2) (19 / 20)).1 ≤
        (highest_density_interval (fun i : Fin 2 => (i.1 : ℚ)) (fun _ => 1 / 2) (17 / 25)).1 ∧
      (highest_density_interval (fun i : Fin 2 => (i.1 : ℚ)) (fun _ => 1 / 2) (17 / 25)).2 ≤
        (highest_density_interval (fun i : Fin 2 => (i.1 : ℚ)) (fun _ => 1 / 2) (19 / 20)).2 :=
  highest_density_interval_nested (fun i : Fin 2 => (i.1 : ℚ)) (fun _ => 1 / 2) (17 / 25)
    (19 / 20) (fun a b hab => by exact_mod_cast Nat.cast_le.mpr hab)
    (fun i => by norm_num) (by norm_num) (by norm_num) (by norm_num)

end InferRt
